import Mathlib

/-!
Shallow embedding of the ray tracer (Quik95/ray-tracing-challange) in Lean 4.

f32 values are modelled as rationals; the machine operations whose bit-level
behaviour lives outside the repository (f32::sqrt, f32::powf, nalgebra's
try_inverse) are passed in as a `FloatOps` bundle, so every embedded function
is parametric in them exactly where the source calls them.
-/

namespace RT

/-- EPSILON = 0.00001 from src/tuple/mod.rs. -/
def EPSILON : ℚ := 1 / 100000

/-- `Vector` from src/tuple/mod.rs (x, y, z : f32). -/
structure Vector where
  x : ℚ
  y : ℚ
  z : ℚ
  deriving DecidableEq

/-- `Point` from src/tuple/mod.rs. -/
structure Point where
  x : ℚ
  y : ℚ
  z : ℚ
  deriving DecidableEq

/-- `Color` from src/tuple/mod.rs. -/
structure Color where
  r : ℚ
  g : ℚ
  b : ℚ
  deriving DecidableEq

instance : Neg Vector := ⟨fun v => ⟨-v.x, -v.y, -v.z⟩⟩

instance : Add Vector := ⟨fun a b => ⟨a.x + b.x, a.y + b.y, a.z + b.z⟩⟩

instance : Sub Vector := ⟨fun a b => ⟨a.x - b.x, a.y - b.y, a.z - b.z⟩⟩

instance : HMul Vector ℚ Vector := ⟨fun v s => ⟨v.x * s, v.y * s, v.z * s⟩⟩

instance : HSub Point Point Vector := ⟨fun a b => ⟨a.x - b.x, a.y - b.y, a.z - b.z⟩⟩

instance : HAdd Point Vector Point := ⟨fun p v => ⟨p.x + v.x, p.y + v.y, p.z + v.z⟩⟩

instance : HSub Point Vector Point := ⟨fun p v => ⟨p.x - v.x, p.y - v.y, p.z - v.z⟩⟩

instance : Add Color := ⟨fun a b => ⟨a.r + b.r, a.g + b.g, a.b + b.b⟩⟩

instance : HMul Color ℚ Color := ⟨fun c s => ⟨c.r * s, c.g * s, c.b * s⟩⟩

/-- Hadamard product, `impl Mul<Self> for Color`. -/
instance : Mul Color := ⟨fun a b => ⟨a.r * b.r, a.g * b.g, a.b * b.b⟩⟩

/-- `Color::black()`. -/
def Color.black : Color := ⟨0, 0, 0⟩

/-- `Color::white()`. -/
def Color.white : Color := ⟨1, 1, 1⟩

/-- `Vector::dot`; the source computes `z.mul_add(oz, x.mul_add(ox, y*oy))`,
which over the rationals is the same sum. -/
def Vector.dot (v w : Vector) : ℚ :=
  v.z * w.z + (v.x * w.x + v.y * w.y)

/-- `Vector::reflect(v, n) = v − n·2·(v·n)`. -/
def Vector.reflect (v n : Vector) : Vector :=
  v - (n * (2 : ℚ)) * v.dot n

/-- 4×4 matrix of f32, row major (the nalgebra wrapper `Matrix4`). -/
structure Matrix4 where
  a00 : ℚ
  a01 : ℚ
  a02 : ℚ
  a03 : ℚ
  a10 : ℚ
  a11 : ℚ
  a12 : ℚ
  a13 : ℚ
  a20 : ℚ
  a21 : ℚ
  a22 : ℚ
  a23 : ℚ
  a30 : ℚ
  a31 : ℚ
  a32 : ℚ
  a33 : ℚ
  deriving DecidableEq

/-- `Matrix4::identity()`. -/
def Matrix4.identity : Matrix4 :=
  ⟨1, 0, 0, 0, 0, 1, 0, 0, 0, 0, 1, 0, 0, 0, 0, 1⟩

/-- `Matrix4::transpose`. -/
def Matrix4.transpose (m : Matrix4) : Matrix4 :=
  ⟨m.a00, m.a10, m.a20, m.a30,
   m.a01, m.a11, m.a21, m.a31,
   m.a02, m.a12, m.a22, m.a32,
   m.a03, m.a13, m.a23, m.a33⟩

/-- `impl Mul<Point> for Matrix4`: homogeneous w = 1, the w row is dropped. -/
def Matrix4.mulPoint (m : Matrix4) (p : Point) : Point :=
  ⟨m.a00 * p.x + m.a01 * p.y + m.a02 * p.z + m.a03,
   m.a10 * p.x + m.a11 * p.y + m.a12 * p.z + m.a13,
   m.a20 * p.x + m.a21 * p.y + m.a22 * p.z + m.a23⟩

/-- `impl Mul<Vector> for Matrix4`: homogeneous w = 0. -/
def Matrix4.mulVector (m : Matrix4) (v : Vector) : Vector :=
  ⟨m.a00 * v.x + m.a01 * v.y + m.a02 * v.z,
   m.a10 * v.x + m.a11 * v.y + m.a12 * v.z,
   m.a20 * v.x + m.a21 * v.y + m.a22 * v.z⟩

/-- The machine operations used by the source whose implementations are
outside this repository: `f32::sqrt`, `f32::powf` and nalgebra's
`try_inverse` (wrapped by `Matrix4::inverse`). -/
structure FloatOps where
  sqrt : ℚ → ℚ
  powf : ℚ → ℚ → ℚ
  matInv : Matrix4 → Matrix4

/-- `Vector::magnitude`: `sqrt(z·z + (x·x + y·y))`. -/
def Vector.magnitude (F : FloatOps) (v : Vector) : ℚ :=
  F.sqrt (v.z * v.z + (v.x * v.x + v.y * v.y))

/-- `Vector::normalize`: each component divided by the magnitude. -/
def Vector.normalize (F : FloatOps) (v : Vector) : Vector :=
  let mag := v.magnitude F
  ⟨v.x / mag, v.y / mag, v.z / mag⟩

/-- `Ray` from src/ray.rs. -/
structure Ray where
  origin : Point
  direction : Vector
  deriving DecidableEq

/-- `Ray::position(t) = origin + direction * t`. -/
def Ray.position (r : Ray) (t : ℚ) : Point :=
  r.origin + r.direction * t

/-- `Ray::transform(m)` applies m to origin (w=1) and direction (w=0). -/
def Ray.transform (r : Ray) (m : Matrix4) : Ray :=
  ⟨m.mulPoint r.origin, m.mulVector r.direction⟩

/-- A procedural pattern (trait `Pattern`): its own transform plus the
variant-specific `color_at`, modelled as a function field (the vtable). -/
structure Pattern where
  transform : Matrix4
  colorAt : Point → Color

/-- `Pattern::color_object` (trait default): compose the object's inverse
transform with the inverse of the pattern's own transform. -/
def Pattern.color_object (F : FloatOps) (p : Pattern) (objectInvTransform : Matrix4)
    (point : Point) : Color :=
  let object_point := objectInvTransform.mulPoint point
  let pattern_point := (F.matInv p.transform).mulPoint object_point
  p.colorAt pattern_point

/-- `Material` from src/material.rs. -/
structure Material where
  color : Color
  ambient : ℚ
  diffuse : ℚ
  specular : ℚ
  shininess : ℚ
  reflective : ℚ
  refractive_index : ℚ
  transparency : ℚ
  pattern : Option Pattern

/-- `Material::default()`. -/
def Material.default : Material :=
  { ambient := 1 / 10
    diffuse := 9 / 10
    specular := 9 / 10
    shininess := 200
    reflective := 0
    refractive_index := 1
    transparency := 0
    color := ⟨1, 1, 1⟩
    pattern := none }

/-- A `&'static dyn Shape` trait object: stable id, cached transform and
inverse, material, and the two variant methods as function fields.
`local_intersect` is modelled as the list of t values it reports (the source
pairs each t with `self`; `Shape.intersect` below does that pairing). -/
structure Shape where
  id : ℕ
  transform : Matrix4
  invTransform : Matrix4
  material : Material
  localIntersect : Ray → Option (List ℚ)
  localNormal : Point → Vector

/-- `Shape::get_normal`: inverse transform the point, take the local normal,
push it through the transpose of the inverse transform, normalize. -/
def Shape.get_normal (F : FloatOps) (s : Shape) (point : Point) : Vector :=
  let local_point := s.invTransform.mulPoint point
  let local_normal := s.localNormal local_point
  let world_normal := s.invTransform.transpose.mulVector local_normal
  world_normal.normalize F

/-- `Intersection`: t plus the shape reference. -/
structure Intersection where
  t : ℚ
  object : Shape

/-- `impl PartialEq for Intersection`: same t and same object id. -/
def Intersection.beq (a b : Intersection) : Bool :=
  a.t == b.t && a.object.id == b.object.id

/-- `Shape::intersect`: transform the ray by the inverse transform, call
`local_intersect`, pair every root with the shape. -/
def Shape.intersect (s : Shape) (ray : Ray) : Option (List Intersection) :=
  (s.localIntersect (ray.transform s.invTransform)).map (List.map fun t => ⟨t, s⟩)

/-- `Plane::local_intersect` from src/shape/plane.rs: miss when
|direction.y| < EPSILON, otherwise the single root −origin.y / direction.y. -/
def planeLocalIntersect (ray : Ray) : Option (List ℚ) :=
  if |ray.direction.y| < EPSILON then none
  else some [-ray.origin.y / ray.direction.y]

/-- `Plane::local_normal`: constant (0, 1, 0). -/
def planeLocalNormal (_ : Point) : Vector := ⟨0, 1, 0⟩

/-- A `Plane` shape value (src/shape/plane.rs) with the given id, transform
data and material. -/
def mkPlane (id : ℕ) (transform invTransform : Matrix4) (m : Material) : Shape :=
  { id := id
    transform := transform
    invTransform := invTransform
    material := m
    localIntersect := planeLocalIntersect
    localNormal := planeLocalNormal }

/-- One step of `min_by` on t: keep the current minimum unless the new
element is strictly smaller (so the first of equal minima survives). -/
def minStep (acc : Option Intersection) (x : Intersection) : Option Intersection :=
  match acc with
  | none => some x
  | some m => if x.t < m.t then some x else some m

/-- `Intersection::get_hit`: among the intersections with t ≥ 0, the one with
minimal t (`min_by` keeps the first of equally minimal elements). -/
def Intersection.get_hit (hits : List Intersection) : Option Intersection :=
  (hits.filter fun x => decide (0 ≤ x.t)).foldl minStep none

/-- `containers.last()` ↦ refractive index, 1.0 when the list is empty
(the two `if containers.is_empty()` arms of the source). -/
def lastRefractiveIndex (containers : List Shape) : ℚ :=
  match containers.getLast? with
  | none => 1
  | some s => s.material.refractive_index

/-- One `containers` update of `calculate_refractive_indices`: remove the
first entry with the same id if present, else append the object. -/
def toggleContainer (containers : List Shape) (o : Shape) : List Shape :=
  if containers.any fun x => x.id == o.id then
    containers.eraseP fun x => x.id == o.id
  else
    containers ++ [o]

/-- The loop of `Intersection::calculate_refractive_indices`, with the
mutable `n1`, `n2`, `containers` as accumulators; the `break` is the early
return in the `i == self` iteration. -/
def calcRefrLoop (h : Intersection) :
    List Intersection → List Shape → ℚ → ℚ → ℚ × ℚ
  | [], _, n1, n2 => (n1, n2)
  | i :: rest, containers, n1, n2 =>
    let n1 := if i.beq h then lastRefractiveIndex containers else n1
    let containers' := toggleContainer containers i.object
    if i.beq h then (n1, lastRefractiveIndex containers')
    else calcRefrLoop h rest containers' n1 n2

/-- `Intersection::calculate_refractive_indices(self, xs)`. -/
def Intersection.calculate_refractive_indices (h : Intersection)
    (xs : List Intersection) : ℚ × ℚ :=
  calcRefrLoop h xs [] 0 0

/-- `PrecomputedHit` from src/shape/mod.rs. -/
structure PrecomputedHit where
  intersection : Intersection
  point : Point
  eye : Vector
  normal : Vector
  inside : Bool
  over_point : Point
  under_point : Point
  reflected_vector : Vector
  n1 : ℚ
  n2 : ℚ

/-- `Intersection::precompute_hit`. -/
def Intersection.precompute_hit (F : FloatOps) (i : Intersection) (ray : Ray)
    (xs : List Intersection) : PrecomputedHit :=
  let point := ray.position i.t
  let eye := -ray.direction
  let normal0 := i.object.get_normal F point
  let flipped := decide (normal0.dot eye < 0)
  let normal := if flipped then -normal0 else normal0
  let over_point := point + normal * EPSILON
  let under_point := point - normal * EPSILON
  let reflected := ray.direction.reflect normal
  let nn := i.calculate_refractive_indices xs
  { intersection := i
    point := point
    eye := eye
    normal := normal
    inside := flipped
    over_point := over_point
    under_point := under_point
    reflected_vector := reflected
    n1 := nn.1
    n2 := nn.2 }

/-- `PrecomputedHit::schlick_reflectance`; the source's
`cos.mul_add(-cos, 1.0)` is `1 − cos²` and `(1−r0).mul_add((1−cos)^5, r0)`
is `(1−r0)·(1−cos)^5 + r0`. -/
def PrecomputedHit.schlick_reflectance (F : FloatOps) (c : PrecomputedHit) : ℚ :=
  let cos := c.eye.dot c.normal
  if c.n2 < c.n1 then
    let n := c.n1 / c.n2
    let sin2t := n * n * (cos * (-cos) + 1)
    if 1 < sin2t then 1
    else
      let cosT := F.sqrt (1 - sin2t)
      let r0 := ((c.n1 - c.n2) / (c.n1 + c.n2)) ^ 2
      (1 - r0) * (1 - cosT) ^ 5 + r0
  else
    let r0 := ((c.n1 - c.n2) / (c.n1 + c.n2)) ^ 2
    (1 - r0) * (1 - cos) ^ 5 + r0

/-- `PointLight` from src/light.rs. -/
structure PointLight where
  position : Point
  intensity : Color

/-- `PointLight::calculate_lighting` (Phong) from src/light.rs. -/
def PointLight.calculate_lighting (F : FloatOps) (light : PointLight)
    (material : Material) (object : Shape) (pos : Point)
    (eye_vector normal_vector : Vector) (in_shadow : Bool) : Color :=
  let effective_color :=
    match material.pattern with
    | some p => p.color_object F object.invTransform pos
    | none => material.color
  let effective_color := effective_color * light.intensity
  let ambient := effective_color * material.ambient
  if in_shadow then ambient
  else
    let light_vector := (light.position - pos).normalize F
    let light_dot_normal := light_vector.dot normal_vector
    let ds : Color × Color :=
      if light_dot_normal < 0 then (⟨0, 0, 0⟩, ⟨0, 0, 0⟩)
      else
        let diffuse := effective_color * material.diffuse * light_dot_normal
        let reflect_vector := -(light_vector.reflect normal_vector)
        let reflect_dot_eye := reflect_vector.dot eye_vector
        let specular :=
          if reflect_dot_eye < 0 then (⟨0, 0, 0⟩ : Color)
          else
            let factor := F.powf reflect_dot_eye material.shininess
            light.intensity * material.specular * factor
        (diffuse, specular)
    ambient + ds.1 + ds.2

/-- `World` from src/world.rs. -/
structure World where
  light_source : PointLight
  objects : List Shape

/-- Insert into a t-sorted list, before any element of equal t already
present (the element being inserted comes earlier in the original list). -/
def insertByT (i : Intersection) : List Intersection → List Intersection
  | [] => [i]
  | j :: rest => if j.t < i.t then j :: insertByT i rest else i :: j :: rest

/-- Stable sort by t. itertools' `sorted()` is a stable sort by
`Ord for Intersection` (which compares t); a stable insertion sort has the
same input/output behaviour, and being structurally recursive it also
evaluates on concrete scenes. -/
def sortByT : List Intersection → List Intersection
  | [] => []
  | x :: rest => insertByT x (sortByT rest)

/-- `World::intersect_world`: intersect every object, drop the misses,
flatten, sort by t (`sorted()` with `Ord for Intersection`). -/
def World.intersect_world (w : World) (r : Ray) : List Intersection :=
  sortByT ((w.objects.map fun s => s.intersect r).filterMap id).flatten

/-- `World::is_shadowed` from src/world.rs. -/
def World.is_shadowed (F : FloatOps) (w : World) (p : Point) : Bool :=
  let v := w.light_source.position - p
  let distance := v.magnitude F
  let direction := v.normalize F
  let r : Ray := ⟨p, direction⟩
  let intersections := w.intersect_world r
  match Intersection.get_hit intersections with
  | none => false
  | some h => decide (h.t < distance)

/-- `World::reflected_color`; `colorAt` stands for the recursive
`self.color_at`, and `none` propagates evaluation-fuel exhaustion. -/
def World.reflected_color (colorAt : Ray → ℤ → Option Color)
    (comps : PrecomputedHit) (remaining_reflections : ℤ) : Option Color :=
  if remaining_reflections ≤ 0 then some Color.black
  else if comps.intersection.object.material.reflective = 0 then some Color.black
  else
    let reflected_ray : Ray := ⟨comps.over_point, comps.reflected_vector⟩
    (colorAt reflected_ray (remaining_reflections - 1)).map
      fun color => color * comps.intersection.object.material.reflective

/-- `World::refracted_color`; note the first guard of the source is
`bounces_remaining == 0`, not `<= 0`. `colorAt` stands for the recursive
`self.color_at`. -/
def World.refracted_color (F : FloatOps) (colorAt : Ray → ℤ → Option Color)
    (comps : PrecomputedHit) (bounces_remaining : ℤ) : Option Color :=
  if bounces_remaining = 0 then some Color.black
  else if comps.intersection.object.material.transparency = 0 then some Color.black
  else
    let n_ratio := comps.n1 / comps.n2
    let cos_i := comps.eye.dot comps.normal
    let sin2_t := n_ratio ^ 2 * (cos_i * (-cos_i) + 1)
    if 1 < sin2_t then some Color.black
    else
      let cos_t := F.sqrt (1 - sin2_t)
      let direction := comps.normal * (n_ratio * cos_i + -cos_t) - comps.eye * n_ratio
      let refracted_ray : Ray := ⟨comps.under_point, direction⟩
      (colorAt refracted_ray (bounces_remaining - 1)).map
        fun color => color * comps.intersection.object.material.transparency

/-- `World::shade_hit`: surface (Phong at over_point, shadow-tested) plus the
reflected and refracted contributions, Schlick-blended when the material is
both reflective and transparent. -/
def World.shade_hit (F : FloatOps) (colorAt : Ray → ℤ → Option Color) (w : World)
    (comps : PrecomputedHit) (remaining_reflections : ℤ) : Option Color :=
  let shadowed := w.is_shadowed F comps.over_point
  let surface := w.light_source.calculate_lighting F
    comps.intersection.object.material comps.intersection.object
    comps.over_point comps.eye comps.normal shadowed
  (World.reflected_color colorAt comps remaining_reflections).bind fun reflected =>
    (World.refracted_color F colorAt comps remaining_reflections).bind fun refracted =>
      let material := comps.intersection.object.material
      if 0 < material.reflective ∧ 0 < material.transparency then
        let reflectance := comps.schlick_reflectance F
        some (surface + reflected * reflectance + refracted * ((1 : ℚ) - reflectance))
      else
        some (surface + reflected + refracted)

/-- `World::color_at`, with an explicit evaluation-fuel argument tying the
recursive knot: `none` means the modelled recursion was not given enough
fuel (the source recursion is unbounded when called with negative depth). -/
def World.color_at (F : FloatOps) (w : World) : ℕ → Ray → ℤ → Option Color
  | 0, _, _ => none
  | fuel + 1, r, remaining_reflections =>
    let xs := w.intersect_world r
    match Intersection.get_hit xs with
    | some hit =>
      World.shade_hit F (World.color_at F w fuel) w
        (hit.precompute_hit F r xs) remaining_reflections
    | none => some ⟨0, 0, 0⟩

/-- `Canvas` from src/canvas/mod.rs. -/
structure Canvas where
  width : ℕ
  height : ℕ
  pixels : List Color
  center_point : Point
  deriving DecidableEq

/-- `Canvas::new`: width·height black pixels. -/
def Canvas.new (width height : ℕ) : Canvas :=
  { width := width
    height := height
    pixels := List.replicate (width * height) ⟨0, 0, 0⟩
    center_point := ⟨(width : ℚ) / 2, (height : ℚ) / 2, 0⟩ }

/-- `Canvas::index_at`: bounds-checked row-major index (`Err` is `none`). -/
def Canvas.index_at (c : Canvas) (x y : ℕ) : Option ℕ :=
  if x ≥ c.width ∨ y ≥ c.height then none
  else some (y * c.width + x)

/-- `Canvas::write_pixel`. -/
def Canvas.write_pixel (c : Canvas) (x y : ℕ) (color : Color) : Option Canvas :=
  (c.index_at x y).map fun index => { c with pixels := c.pixels.set index color }

/-- `Canvas::pixel_at`. -/
def Canvas.pixel_at (c : Canvas) (x y : ℕ) : Option Color :=
  (c.index_at x y).bind fun index => c.pixels.get? index

/-- Rust's `f32::clamp(lo, hi)`. -/
def ratClamp (x lo hi : ℚ) : ℚ :=
  if x < lo then lo else if hi < x then hi else x

/-- Rust's `as u8` on an f32: truncate toward zero, saturating at 0 and 255. -/
def castU8 (q : ℚ) : ℕ := min 255 (Int.toNat ⌊q⌋)

/-- The `"{r} {g} {b} "` chunk pushed per pixel by `convert_to_ppm`. -/
def tripleStr (c : Color) : String :=
  toString (castU8 (c.r * 255)) ++ " " ++ toString (castU8 (c.g * 255)) ++ " "
    ++ toString (castU8 (c.b * 255)) ++ " "

/-- The pixel loop of `Canvas::convert_to_ppm` with the `char_count`
accumulator: after pushing a triple, a newline is pushed and the counter
reset when `char_count > 70 - 12`, else the counter grows by 12. -/
def ppmLoop : List Color → ℕ → String → String
  | [], _, ppm => ppm
  | pixel :: rest, char_count, ppm =>
    let ppm := ppm ++ tripleStr pixel
    if 70 - 12 < char_count then ppmLoop rest 0 (ppm ++ "\n")
    else ppmLoop rest (char_count + 12) ppm

/-- `Canvas::convert_to_ppm`. -/
def Canvas.convert_to_ppm (c : Canvas) : String :=
  let ppm := "P3\n"
  let ppm := ppm ++ (toString c.width ++ " " ++ toString c.height ++ "\n")
  let ppm := ppm ++ "255\n"
  ppmLoop c.pixels 0 ppm ++ "\n"

/-- `Camera` from src/camera.rs. -/
structure Camera where
  hsize : ℕ
  vsize : ℕ
  field_of_view : ℚ
  transform : Matrix4
  pixel_size : ℚ
  half_width : ℚ
  half_height : ℚ
  samples_pre_pixel : ℕ

/-- `Camera::rescale_color_range`: divide by the sample count and clamp each
channel to [0, 1]. -/
def Camera.rescale_color_range (c : Camera) (color : Color) : Color :=
  let scale := 1 / (c.samples_pre_pixel : ℚ)
  let scaled := color * scale
  ⟨ratClamp scaled.r 0 1, ratClamp scaled.g 0 1, ratClamp scaled.b 0 1⟩

/-- `Camera::render`. The scanline loop is `0..self.vsize - 1` and the pixel
loop `0..self.hsize - 1`; each loop body sums `samples_pre_pixel` sampled
colors, rescales, and sends `((x, y), color)` down the channel; the receive
loop then writes every sent pixel (`write_pixel` failure, `none`, models the
unwrap panic). `sample x y k` abstracts the k-th jittered
`color_at(ray_for_pixel(x, y), MAX_DEPTH)` evaluation, whose thread-local
RNG is outside the model; writes commute pixel-wise, so the fold order
is one of the channel's possible arrival orders and they all agree. -/
def Camera.render (c : Camera) (sample : ℕ → ℕ → ℕ → Color) : Option Canvas :=
  let sends : List ((ℕ × ℕ) × Color) :=
    (List.range (c.vsize - 1)).flatMap fun y =>
      (List.range (c.hsize - 1)).map fun x =>
        ((x, y),
          c.rescale_color_range
            ((List.range c.samples_pre_pixel).foldl
              (fun color k => color + sample x y k) ⟨0, 0, 0⟩))
  sends.foldlM (fun canvas s => canvas.write_pixel s.1.1 s.1.2 s.2)
    (Canvas.new c.hsize c.vsize)

/-- `f32::partial_cmp`: `none` when either operand is NaN. In this
NaN-aware fragment an f32 is `Option ℚ`, `none` being NaN. -/
def f32PartialCmp : Option ℚ → Option ℚ → Option Ordering
  | some a, some b => some (compare a b)
  | _, _ => none

/-- An intersection record whose t may be NaN, for the `Ord` analysis. -/
structure IntersectionF where
  t : Option ℚ
  objectId : ℕ
  deriving DecidableEq

/-- `Ord::cmp for Intersection` = `self.partial_cmp(other).unwrap()`:
`none` models the unwrap panic. -/
def IntersectionF.cmp (a b : IntersectionF) : Option Ordering :=
  f32PartialCmp a.t b.t

/-- The filter predicate `x.t >= 0.`: false when t is NaN. -/
def tNonneg : Option ℚ → Bool
  | none => false
  | some q => decide (0 ≤ q)

/-- `min_by` with a panicking comparator, in the Option monad: an outer
`none` is a panic while folding. -/
def minByPanic (cmp : IntersectionF → IntersectionF → Option Ordering) :
    List IntersectionF → Option IntersectionF → Option (Option IntersectionF)
  | [], acc => some acc
  | x :: rest, none => minByPanic cmp rest (some x)
  | x :: rest, some m =>
    match cmp x m with
    | none => none
    | some ord =>
      minByPanic cmp rest (some (if ord = Ordering.lt then x else m))

/-- `Intersection::get_hit` over possibly-NaN t values: filter `t >= 0`,
then `min_by` with the panicking comparator. -/
def getHitF (hits : List IntersectionF) : Option (Option IntersectionF) :=
  minByPanic IntersectionF.cmp (hits.filter fun x => tNonneg x.t) none

/-- Spec-side view of the refraction stack: the containers list obtained by
folding the toggle over a prefix of the intersection list. -/
def containersOf (xs : List Intersection) : List Shape :=
  xs.foldl (fun c i => toggleContainer c i.object) []

/-- Spec-side (n1, n2), following the claim's words: n1 reads the containers
open just before the first element equal to the hit, n2 reads them just
after toggling that element's object; when the hit is not in the list the
loop never breaks and the initial (0, 0) survives. -/
def specRefractiveIndices (h : Intersection) (xs : List Intersection) : ℚ × ℚ :=
  match xs.find? (fun i => i.beq h) with
  | none => (0, 0)
  | some i0 =>
    let c := containersOf (xs.takeWhile fun i => !(i.beq h))
    (lastRefractiveIndex c, lastRefractiveIndex (toggleContainer c i0.object))

/-- Spec-side PPM sample value: channel clamped to [0,1], scaled to 255 and
rounded to the nearest integer (the claim's wording); written from the
spec, for comparison with the code's `castU8`. -/
def specPpmValue (channel : ℚ) : ℤ :=
  ⌊ratClamp channel 0 1 * 255 + 1 / 2⌋

/-- Reference shape of the PPM body: lines of six triples, a trailing
partial line (fewer than six triples) getting no newline of its own. -/
def ppmChunks : List Color → String
  | a :: b :: c :: d :: e :: f :: rest =>
    tripleStr a ++ tripleStr b ++ tripleStr c ++ tripleStr d ++ tripleStr e
      ++ tripleStr f ++ "\n" ++ ppmChunks rest
  | [] => ""
  | [a] => tripleStr a
  | [a, b] => tripleStr a ++ tripleStr b
  | [a, b, c] => tripleStr a ++ tripleStr b ++ tripleStr c
  | [a, b, c, d] => tripleStr a ++ tripleStr b ++ tripleStr c ++ tripleStr d
  | [a, b, c, d, e] =>
    tripleStr a ++ tripleStr b ++ tripleStr c ++ tripleStr d ++ tripleStr e

/-- Fueled binary search for the integer square root (structurally
recursive, so it evaluates inside proofs); 64 rounds cover every n < 2^64. -/
def natSqrtGo (n : ℕ) : ℕ → ℕ → ℕ → ℕ
  | 0, lo, _ => lo
  | fuel + 1, lo, hi =>
    if hi ≤ lo then lo
    else
      let mid := (lo + hi + 1) / 2
      if mid * mid ≤ n then natSqrtGo n fuel mid hi
      else natSqrtGo n fuel lo (mid - 1)

/-- Integer square root (floor), by fueled binary search. -/
def natSqrt (n : ℕ) : ℕ := natSqrtGo n 64 0 n

/-- Rational square root: exact on rationals whose numerator and
denominator are perfect squares. -/
def ratSqrt (q : ℚ) : ℚ := mkRat (natSqrt q.num.toNat) (natSqrt q.den)

/-- FloatOps instance used on concrete inputs whose f32 operations are
exact: `ratSqrt` agrees with `f32::sqrt` on the perfect squares that the
concrete scenes below produce; `powf` and the matrix inverse are never
reached on those evaluation paths. -/
def exactOps : FloatOps :=
  ⟨ratSqrt, fun _ _ => 0, fun _ => Matrix4.identity⟩

/-- FloatOps instance whose sqrt is constantly 0 (inside [0, 1], as f32 sqrt
is on [0, 1]); used for witnesses that only need those bounds. -/
def zeroOps : FloatOps :=
  ⟨fun _ => 0, fun _ _ => 0, fun _ => Matrix4.identity⟩

/-- Translation along y by d (the only transform the concrete scenes use). -/
def translateY (d : ℚ) : Matrix4 :=
  ⟨1, 0, 0, 0, 0, 1, 0, d, 0, 0, 1, 0, 0, 0, 0, 1⟩

/-- A fully transparent material with refractive index 1. -/
def matClear : Material :=
  { Material.default with transparency := 1 }

/-- The y = 0 plane with the clear material. -/
def planeClear : Shape :=
  mkPlane 0 Matrix4.identity Matrix4.identity matClear

/-- The y = −2 plane with the default (opaque, non-reflective) material. -/
def planeFloor : Shape :=
  mkPlane 1 (translateY (-2)) (translateY 2) Material.default

/-- Scene for the negative-depth refraction evaluation: light high above,
a clear plane at y = 0 over an opaque plane at y = −2. -/
def worldClear : World :=
  ⟨⟨⟨0, 10, 0⟩, ⟨1, 1, 1⟩⟩, [planeClear, planeFloor]⟩

/-- A ray one unit above the clear plane, pointing straight down. -/
def rayDown : Ray := ⟨⟨0, 1, 0⟩, ⟨0, -1, 0⟩⟩

/-- The precomputed hit of `rayDown` on the clear plane at t = 1, against
the full intersection list of the scene. -/
def compsClear : PrecomputedHit :=
  Intersection.precompute_hit exactOps ⟨1, planeClear⟩ rayDown
    (worldClear.intersect_world rayDown)

/-- The y = 0 plane with the default material (used by plain witnesses). -/
def planeDefault : Shape :=
  mkPlane 2 Matrix4.identity Matrix4.identity Material.default

/-- Scene with a single default plane. -/
def worldDefault : World :=
  ⟨⟨⟨0, 10, 0⟩, ⟨1, 1, 1⟩⟩, [planeDefault]⟩

/-- The precomputed hit of `rayDown` on the default plane at t = 1. -/
def compsDefault : PrecomputedHit :=
  Intersection.precompute_hit exactOps ⟨1, planeDefault⟩ rayDown
    (worldDefault.intersect_world rayDown)

/-- Glass-like planes with distinct ids and refractive indices 1.5, 2.0,
2.5 — the nested-dielectric scenario of the repository's n1/n2 test. -/
def shapeA : Shape :=
  mkPlane 10 Matrix4.identity Matrix4.identity
    { Material.default with transparency := 1, refractive_index := 3 / 2 }

/-- Second glass-like plane (refractive index 2.0). -/
def shapeB : Shape :=
  mkPlane 11 Matrix4.identity Matrix4.identity
    { Material.default with transparency := 1, refractive_index := 2 }

/-- Third glass-like plane (refractive index 2.5). -/
def shapeC : Shape :=
  mkPlane 12 Matrix4.identity Matrix4.identity
    { Material.default with transparency := 1, refractive_index := 5 / 2 }

/-- The sorted intersection list 2, 2.75, 3.25, 4.75, 5.25, 6 against
A, B, C, B, C, A. -/
def xsNested : List Intersection :=
  [⟨2, shapeA⟩, ⟨11 / 4, shapeB⟩, ⟨13 / 4, shapeC⟩, ⟨19 / 4, shapeB⟩,
   ⟨21 / 4, shapeC⟩, ⟨6, shapeA⟩]

/-- A precomputed-hit record with unit eye and normal vectors at 36.87°
(cos = 4/5) and a glass-to-vacuum interface, for the Schlick witness. -/
def compsSchlick : PrecomputedHit :=
  { intersection := ⟨0, planeDefault⟩
    point := ⟨0, 0, 0⟩
    eye := ⟨3 / 5, 4 / 5, 0⟩
    normal := ⟨0, 1, 0⟩
    inside := true
    over_point := ⟨0, EPSILON, 0⟩
    under_point := ⟨0, -EPSILON, 0⟩
    reflected_vector := ⟨3 / 5, -4 / 5, 0⟩
    n1 := 3 / 2
    n2 := 1 }

/-- 1×1 canvas whose single pixel channel 503/1275 scales to 100.6, where
truncation (100) and round-to-nearest (101) differ. -/
def canvasTrunc : Canvas :=
  ⟨1, 1, [⟨503 / 1275, 0, 0⟩], ⟨1 / 2, 1 / 2, 0⟩⟩

/-- A 2×2 camera with one sample per pixel (projection fields unused by the
pixel-coverage analysis). -/
def cameraTwo : Camera :=
  ⟨2, 2, 1, Matrix4.identity, 0, 0, 0, 1⟩

/-- A sampling oracle that reports white for every sample of every pixel. -/
def sampleWhite : ℕ → ℕ → ℕ → Color := fun _ _ _ => Color.white

/-- NaN-free intersection list for the Ord/panic witness. -/
def xsNumeric : List IntersectionF :=
  [⟨some 3, 0⟩, ⟨some (-1), 1⟩, ⟨some 2, 2⟩]

/-! ### Helper lemmas -/

lemma color_add_def (a b : Color) : a + b = ⟨a.r + b.r, a.g + b.g, a.b + b.b⟩ := rfl

lemma color_add_black (c : Color) : c + Color.black = c := by
  cases c
  simp [color_add_def, Color.black]

lemma foldl_minStep_some (l : List Intersection) :
    ∀ a : Intersection, ∃ m, l.foldl minStep (some a) = some m := by
  induction l with
  | nil => exact fun a => ⟨a, rfl⟩
  | cons x rest ih =>
    intro a
    simp only [List.foldl_cons, minStep]
    split
    · exact ih x
    · exact ih a

lemma foldl_minStep_le (l : List Intersection) :
    ∀ a m : Intersection, l.foldl minStep (some a) = some m →
      m.t ≤ a.t ∧ ∀ x ∈ l, m.t ≤ x.t := by
  induction l with
  | nil =>
    intro a m h
    obtain rfl : a = m := by simpa using h
    exact ⟨le_refl _, by simp⟩
  | cons x rest ih =>
    intro a m h
    simp only [List.foldl_cons, minStep] at h
    by_cases hx : x.t < a.t
    · rw [if_pos hx] at h
      obtain ⟨hle, hall⟩ := ih x m h
      refine ⟨le_trans hle (le_of_lt hx), ?_⟩
      intro y hy
      rcases List.mem_cons.mp hy with rfl | hy
      · exact hle
      · exact hall y hy
    · rw [if_neg hx] at h
      obtain ⟨hle, hall⟩ := ih a m h
      refine ⟨hle, ?_⟩
      intro y hy
      rcases List.mem_cons.mp hy with rfl | hy
      · exact le_trans hle (le_of_not_lt hx)
      · exact hall y hy

lemma foldl_minStep_mem (l : List Intersection) :
    ∀ a m : Intersection, l.foldl minStep (some a) = some m → m = a ∨ m ∈ l := by
  induction l with
  | nil =>
    intro a m h
    obtain rfl : a = m := by simpa using h
    exact Or.inl rfl
  | cons x rest ih =>
    intro a m h
    simp only [List.foldl_cons, minStep] at h
    by_cases hx : x.t < a.t
    · rw [if_pos hx] at h
      rcases ih x m h with rfl | hm
      · exact Or.inr (List.mem_cons_self _ _)
      · exact Or.inr (List.mem_cons_of_mem _ hm)
    · rw [if_neg hx] at h
      rcases ih a m h with rfl | hm
      · exact Or.inl rfl
      · exact Or.inr (List.mem_cons_of_mem _ hm)

lemma get_hit_eq_none_iff (hits : List Intersection) :
    Intersection.get_hit hits = none ↔ ∀ i ∈ hits, ¬ 0 ≤ i.t := by
  unfold Intersection.get_hit
  rcases hfil : hits.filter (fun x => decide (0 ≤ x.t)) with _ | ⟨x, rest⟩
  · rw [hfil]
    simp only [List.foldl_nil]
    constructor
    · intro _ i hi
      have := List.filter_eq_nil_iff.mp hfil i hi
      simpa using this
    · intro _
      trivial
  · rw [hfil]
    constructor
    · intro h
      obtain ⟨m, hm⟩ := foldl_minStep_some rest x
      simp only [List.foldl_cons, minStep] at h
      rw [hm] at h
      cases h
    · intro hall
      exfalso
      have hx : x ∈ hits.filter (fun x => decide (0 ≤ x.t)) := by
        rw [hfil]
        exact List.mem_cons_self _ _
      have := List.mem_filter.mp hx
      exact hall x this.1 (by simpa using this.2)

lemma get_hit_eq_some (hits : List Intersection) (m : Intersection)
    (h : Intersection.get_hit hits = some m) :
    m ∈ hits ∧ 0 ≤ m.t ∧ ∀ i ∈ hits, 0 ≤ i.t → m.t ≤ i.t := by
  unfold Intersection.get_hit at h
  rcases hfil : hits.filter (fun x => decide (0 ≤ x.t)) with _ | ⟨x, rest⟩
  · rw [hfil] at h
    cases h
  · rw [hfil] at h
    simp only [List.foldl_cons, minStep] at h
    have hmem := foldl_minStep_mem rest x m h
    have hle := foldl_minStep_le rest x m h
    have hmfil : m ∈ hits.filter (fun x => decide (0 ≤ x.t)) := by
      rw [hfil]
      rcases hmem with rfl | hm
      · exact List.mem_cons_self _ _
      · exact List.mem_cons_of_mem _ hm
    have hmf := List.mem_filter.mp hmfil
    refine ⟨hmf.1, by simpa using hmf.2, ?_⟩
    intro i hi h0i
    have hif : i ∈ hits.filter (fun x => decide (0 ≤ x.t)) :=
      List.mem_filter.mpr ⟨hi, by simpa using h0i⟩
    rw [hfil] at hif
    rcases List.mem_cons.mp hif with rfl | hif
    · exact hle.1
    · exact hle.2 i hif

lemma match_get_hit_iff (xs : List Intersection) (d : ℚ) :
    (match Intersection.get_hit xs with
      | none => false
      | some h => decide (h.t < d)) = true ↔ ∃ i ∈ xs, 0 ≤ i.t ∧ i.t < d := by
  rcases hh : Intersection.get_hit xs with _ | m
  · simp only [Bool.false_eq_true, false_iff]
    rintro ⟨i, hi, h0, _⟩
    exact (get_hit_eq_none_iff xs).mp hh i hi h0
  · simp only [decide_eq_true_eq]
    obtain ⟨hmem, h0m, hmin⟩ := get_hit_eq_some xs m hh
    constructor
    · intro hlt
      exact ⟨m, hmem, h0m, hlt⟩
    · rintro ⟨i, hi, h0i, hlt⟩
      exact lt_of_le_of_lt (hmin i hi h0i) hlt

/-! ### Claim theorems -/

/-- C4: `is_shadowed(P)` is true iff the ray traced from P toward the light
(direction normalized) has an intersection with 0 ≤ t < d, where d is the
computed distance from P to the light — equivalently, iff the smallest
non-negative t is below d. -/
theorem is_shadowed_iff_exists_hit_before_light (F : FloatOps) (w : World) (p : Point) :
    w.is_shadowed F p = true ↔
      ∃ i ∈ w.intersect_world ⟨p, (w.light_source.position - p).normalize F⟩,
        0 ≤ i.t ∧ i.t < (w.light_source.position - p).magnitude F :=
  match_get_hit_iff _ _

/-- C7: the plane's `local_intersect` misses exactly when |direction.y| is
below EPSILON; otherwise it returns the single root −origin.y/direction.y,
and the EPSILON guard makes the divisor provably nonzero (the embedding has
no NaN or infinities; the guard is what keeps the f32 division finite). -/
theorem plane_local_intersect_guard (r : Ray) :
    (planeLocalIntersect r = none ↔ |r.direction.y| < EPSILON) ∧
      (EPSILON ≤ |r.direction.y| →
        planeLocalIntersect r = some [-r.origin.y / r.direction.y] ∧
          r.direction.y ≠ 0) := by
  constructor
  · unfold planeLocalIntersect
    split
    · simp_all
    · simp_all
  · intro hge
    have hlt : ¬ |r.direction.y| < EPSILON := not_lt.mpr hge
    constructor
    · unfold planeLocalIntersect
      rw [if_neg hlt]
    · intro h0
      rw [h0] at hge
      simp only [abs_zero] at hge
      have : (0 : ℚ) < EPSILON := by norm_num [EPSILON]
      linarith

/-- Witness for C7 at the concrete downward ray. -/
theorem plane_local_intersect_guard_witness :
    EPSILON ≤ |rayDown.direction.y| ∧
      planeLocalIntersect rayDown = some [-rayDown.origin.y / rayDown.direction.y] ∧
        rayDown.direction.y ≠ 0 := by
  have hge : EPSILON ≤ |rayDown.direction.y| :=
    of_decide_eq_true (by with_unfolding_all rfl)
  exact ⟨hge, (plane_local_intersect_guard rayDown).2 hge⟩

lemma calcRefrLoop_nomatch (h : Intersection) :
    ∀ (xs : List Intersection) (c : List Shape) (n1 n2 : ℚ),
      (∀ i ∈ xs, ¬ i.beq h = true) → calcRefrLoop h xs c n1 n2 = (n1, n2) := by
  intro xs
  induction xs with
  | nil => intro c n1 n2 _; rfl
  | cons i rest ih =>
    intro c n1 n2 hnm
    have hi : ¬ i.beq h = true := hnm i (List.mem_cons_self _ _)
    simp only [calcRefrLoop, Bool.not_eq_true] at hi ⊢
    rw [hi]
    simp only [Bool.false_eq_true, if_false]
    exact ih _ n1 n2 fun j hj => hnm j (List.mem_cons_of_mem _ hj)

/-- C9: when the hit is equal (same t, same object id) to no element of the
intersection list, `calculate_refractive_indices` returns (0, 0) — not the
vacuum (1, 1) — and hence so do the n1/n2 fields of `precompute_hit`. -/
theorem refractive_indices_zero_when_hit_missing (F : FloatOps) (ray : Ray)
    (i : Intersection) (xs : List Intersection)
    (hnm : ∀ j ∈ xs, ¬ j.beq i = true) :
    i.calculate_refractive_indices xs = (0, 0) ∧
      (i.precompute_hit F ray xs).n1 = 0 ∧ (i.precompute_hit F ray xs).n2 = 0 := by
  have hc : i.calculate_refractive_indices xs = (0, 0) :=
    calcRefrLoop_nomatch i xs [] 0 0 hnm
  refine ⟨hc, ?_, ?_⟩ <;>
    simp [Intersection.precompute_hit, hc]

/-- Witness for C9: a hit whose t (99) occurs nowhere in the nested list. -/
theorem refractive_indices_zero_when_hit_missing_witness :
    (∀ j ∈ xsNested, ¬ j.beq ⟨99, shapeA⟩ = true) ∧
      Intersection.calculate_refractive_indices ⟨99, shapeA⟩ xsNested = (0, 0) ∧
        (Intersection.precompute_hit zeroOps ⟨99, shapeA⟩ rayDown xsNested).n1 = 0 ∧
          (Intersection.precompute_hit zeroOps ⟨99, shapeA⟩ rayDown xsNested).n2 = 0 := by
  have hnm : ∀ j ∈ xsNested, ¬ j.beq ⟨99, shapeA⟩ = true :=
    of_decide_eq_true (by with_unfolding_all rfl)
  exact ⟨hnm, refractive_indices_zero_when_hit_missing zeroOps rayDown _ _ hnm⟩

lemma refracted_color_guards (F : FloatOps)
    (colorAt : Ray → ℤ → Option Color) (comps : PrecomputedHit) :
    World.refracted_color F colorAt comps 0 = some Color.black ∧
      (comps.intersection.object.material.transparency = 0 →
        ∀ d : ℤ, World.refracted_color F colorAt comps d = some Color.black) := by
  constructor
  · simp [World.refracted_color]
  · intro htr d
    unfold World.refracted_color
    by_cases hd : d = 0
    · rw [if_pos hd]
    · rw [if_neg hd, if_pos htr]

/-- C3 (amended): `refracted_color` returns black — making no recursive
`color_at` call, as the statement holds for every `colorAt`, including the
no-fuel one — when the depth is exactly 0, and for every depth when the
material's transparency is 0. (The source guard is `bounces_remaining == 0`,
so negative depths with transparent materials do recurse; see the
counterexample.) -/
theorem refracted_color_zero_depth_or_opaque_black (F : FloatOps)
    (colorAt : Ray → ℤ → Option Color) (comps : PrecomputedHit) :
    World.refracted_color F colorAt comps 0 = some Color.black ∧
      (comps.intersection.object.material.transparency = 0 →
        ∀ d : ℤ, World.refracted_color F colorAt comps d = some Color.black) :=
  refracted_color_guards F colorAt comps

/-- Witness for C3's amended statement at a concrete opaque hit and the
fuel-free recursion oracle. -/
theorem refracted_color_zero_depth_or_opaque_black_witness :
    World.refracted_color zeroOps (fun _ _ => none) compsSchlick 0 = some Color.black ∧
      compsSchlick.intersection.object.material.transparency = 0 ∧
        World.refracted_color zeroOps (fun _ _ => none) compsSchlick (-3) = some Color.black := by
  have htr : compsSchlick.intersection.object.material.transparency = 0 :=
    of_decide_eq_true (by with_unfolding_all rfl)
  exact ⟨(refracted_color_zero_depth_or_opaque_black zeroOps (fun _ _ => none) compsSchlick).1,
    htr,
    (refracted_color_zero_depth_or_opaque_black zeroOps (fun _ _ => none) compsSchlick).2 htr (-3)⟩

/-- C3 (counterexample): at depth −1 the guard `bounces_remaining == 0` does
not fire, and on the clear-plane scene the source recurses and returns the
floor's ambient color (0.1, 0.1, 0.1) — not black as the claim states for
every depth ≤ 0. The recursion oracle is the faithful `color_at` at fuel 1,
which the computed value never exhausts. -/
theorem refracted_color_negative_depth_not_black :
    World.refracted_color exactOps (World.color_at exactOps worldClear 1) compsClear (-1) =
        some ⟨1 / 10, 1 / 10, 1 / 10⟩ ∧
      (⟨1 / 10, 1 / 10, 1 / 10⟩ : Color) ≠ Color.black := by
  constructor
  · with_unfolding_all rfl
  · exact of_decide_eq_true (by with_unfolding_all rfl)

/-- C5: for a hit on a material with reflective = 0 and transparency = 0,
`shade_hit` equals the Phong surface term alone — `calculate_lighting` at
`over_point` with the shadow test there — for every depth and every
recursion oracle (so no recursive call contributes). -/
theorem shade_hit_plain_material_eq_surface (F : FloatOps)
    (colorAt : Ray → ℤ → Option Color) (w : World) (comps : PrecomputedHit) (d : ℤ)
    (hrefl : comps.intersection.object.material.reflective = 0)
    (htr : comps.intersection.object.material.transparency = 0) :
    World.shade_hit F colorAt w comps d =
      some (w.light_source.calculate_lighting F comps.intersection.object.material
        comps.intersection.object comps.over_point comps.eye comps.normal
        (w.is_shadowed F comps.over_point)) := by
  have hreflected : World.reflected_color colorAt comps d = some Color.black := by
    unfold World.reflected_color
    by_cases hd : d ≤ 0
    · rw [if_pos hd]
    · rw [if_neg hd, if_pos hrefl]
  have hrefracted : World.refracted_color F colorAt comps d = some Color.black :=
    (refracted_color_guards F colorAt comps).2 htr d
  unfold World.shade_hit
  rw [hreflected, hrefracted]
  simp only [Option.some_bind]
  rw [if_neg (by rw [hrefl]; intro hcon; exact absurd hcon.1 (lt_irrefl 0))]
  rw [color_add_black, color_add_black]

/-- Witness for C5 on the default-material plane scene. -/
theorem shade_hit_plain_material_eq_surface_witness :
    compsSchlick.intersection.object.material.reflective = 0 ∧
      compsSchlick.intersection.object.material.transparency = 0 ∧
        World.shade_hit zeroOps (fun _ _ => none) worldDefault compsSchlick 5 =
          some (worldDefault.light_source.calculate_lighting zeroOps
            compsSchlick.intersection.object.material compsSchlick.intersection.object
            compsSchlick.over_point compsSchlick.eye compsSchlick.normal
            (worldDefault.is_shadowed zeroOps compsSchlick.over_point)) := by
  have hrefl : compsSchlick.intersection.object.material.reflective = 0 :=
    of_decide_eq_true (by with_unfolding_all rfl)
  have htr : compsSchlick.intersection.object.material.transparency = 0 :=
    of_decide_eq_true (by with_unfolding_all rfl)
  exact ⟨hrefl, htr,
    shade_hit_plain_material_eq_surface zeroOps (fun _ _ => none) worldDefault
      compsSchlick 5 hrefl htr⟩

lemma calcRefrLoop_break (h : Intersection) :
    ∀ (xs : List Intersection) (c : List Shape) (n1 n2 : ℚ) (i0 : Intersection),
      xs.find? (fun i => i.beq h) = some i0 →
      calcRefrLoop h xs c n1 n2 =
        (lastRefractiveIndex
            ((xs.takeWhile fun i => !(i.beq h)).foldl
              (fun acc i => toggleContainer acc i.object) c),
          lastRefractiveIndex
            (toggleContainer
              ((xs.takeWhile fun i => !(i.beq h)).foldl
                (fun acc i => toggleContainer acc i.object) c)
              i0.object)) := by
  intro xs
  induction xs with
  | nil =>
    intro c n1 n2 i0 hfind
    simp [List.find?] at hfind
  | cons i rest ih =>
    intro c n1 n2 i0 hfind
    by_cases hi : i.beq h = true
    · have hi0 : i0 = i := by
        rw [@List.find?_cons_of_pos _ (fun j => j.beq h) i rest hi] at hfind
        exact (Option.some_inj.mp hfind).symm
      subst hi0
      simp [calcRefrLoop, hi, List.takeWhile_cons]
    · rw [@List.find?_cons_of_neg _ (fun j => j.beq h) i rest (by simp [hi])] at hfind
      have hstep : calcRefrLoop h (i :: rest) c n1 n2 =
          calcRefrLoop h rest (toggleContainer c i.object) n1 n2 := by
        simp [calcRefrLoop, hi]
      have htake : List.takeWhile (fun j => !(j.beq h)) (i :: rest) =
          i :: List.takeWhile (fun j => !(j.beq h)) rest := by
        simp [List.takeWhile_cons, hi]
      rw [hstep, htake, List.foldl_cons]
      exact ih (toggleContainer c i.object) n1 n2 i0 hfind

/-- C2: for a t-sorted intersection list containing the hit,
`calculate_refractive_indices` returns exactly the spec's (n1, n2): n1 is
1.0 or the refractive index of the container most recently opened before
the hit is processed, n2 the same after toggling the hit's object (id-based
removal or append). -/
theorem calculate_refractive_indices_spec (h : Intersection) (xs : List Intersection)
    (_hsorted : List.Pairwise (fun a b => a.t ≤ b.t) xs)
    (hmem : ∃ i ∈ xs, i.beq h = true) :
    h.calculate_refractive_indices xs = specRefractiveIndices h xs := by
  have hs : (xs.find? fun i => i.beq h).isSome := List.find?_isSome.mpr hmem
  obtain ⟨i0, hfind⟩ := Option.isSome_iff_exists.mp hs
  unfold Intersection.calculate_refractive_indices specRefractiveIndices containersOf
  rw [hfind]
  exact calcRefrLoop_break h xs [] 0 0 i0 hfind

/-- Witness for C2 on the nested-dielectric list, at the hit with t = 3.25. -/
theorem calculate_refractive_indices_spec_witness :
    List.Pairwise (fun a b => a.t ≤ b.t) xsNested ∧
      (∃ i ∈ xsNested, i.beq ⟨13 / 4, shapeC⟩ = true) ∧
        Intersection.calculate_refractive_indices ⟨13 / 4, shapeC⟩ xsNested =
          specRefractiveIndices ⟨13 / 4, shapeC⟩ xsNested := by
  have hsorted : List.Pairwise (fun a b => a.t ≤ b.t) xsNested :=
    of_decide_eq_true (by with_unfolding_all rfl)
  have hmem : ∃ i ∈ xsNested, i.beq ⟨13 / 4, shapeC⟩ = true :=
    of_decide_eq_true (by with_unfolding_all rfl)
  exact ⟨hsorted, hmem,
    calculate_refractive_indices_spec ⟨13 / 4, shapeC⟩ xsNested hsorted hmem⟩

lemma minByPanic_isSome (l : List IntersectionF) :
    ∀ acc : Option IntersectionF,
      (∀ x ∈ l, x.t ≠ none) → (∀ a, acc = some a → a.t ≠ none) →
      (minByPanic IntersectionF.cmp l acc).isSome := by
  induction l with
  | nil =>
    intro acc _ _
    simp [minByPanic]
  | cons x rest ih =>
    intro acc hl hacc
    have hx : x.t ≠ none := hl x (List.mem_cons_self _ _)
    have hrest : ∀ y ∈ rest, y.t ≠ none := fun y hy => hl y (List.mem_cons_of_mem _ hy)
    cases acc with
    | none =>
      exact ih (some x) hrest fun a ha => (Option.some_inj.mp ha) ▸ hx
    | some m =>
      have hm : m.t ≠ none := hacc m rfl
      obtain ⟨p, hp⟩ := Option.ne_none_iff_exists'.mp hx
      obtain ⟨q, hq⟩ := Option.ne_none_iff_exists'.mp hm
      simp only [minByPanic, IntersectionF.cmp, f32PartialCmp, hp, hq]
      apply ih _ hrest
      intro a ha
      obtain rfl : (if compare p q = Ordering.lt then x else m) = a :=
        Option.some_inj.mp ha
      split
      · exact hx
      · exact hm

/-- C10: with no NaN t in the list, every comparison the sort and
`min_by` make is defined (`partial_cmp` never returns `None`, so the
`unwrap` cannot panic) and hit selection completes; a NaN t makes the
modelled `Ord::cmp` hit the `None` (panic) case. -/
theorem intersection_cmp_total_without_nan :
    (∀ xs : List IntersectionF, (∀ i ∈ xs, i.t ≠ none) →
        (∀ a ∈ xs, ∀ b ∈ xs, (IntersectionF.cmp a b).isSome) ∧ (getHitF xs).isSome) ∧
      IntersectionF.cmp ⟨none, 0⟩ ⟨some 1, 1⟩ = none := by
  constructor
  · intro xs hnn
    constructor
    · intro a ha b hb
      obtain ⟨p, hp⟩ := Option.ne_none_iff_exists'.mp (hnn a ha)
      obtain ⟨q, hq⟩ := Option.ne_none_iff_exists'.mp (hnn b hb)
      simp [IntersectionF.cmp, f32PartialCmp, hp, hq]
    · unfold getHitF
      apply minByPanic_isSome
      · intro x hx
        exact hnn x (List.mem_filter.mp hx).1
      · intro a ha
        cases ha
  · rfl

/-- Witness for C10 on a concrete NaN-free list. -/
theorem intersection_cmp_total_without_nan_witness :
    (∀ i ∈ xsNumeric, i.t ≠ none) ∧
      (∀ a ∈ xsNumeric, ∀ b ∈ xsNumeric, (IntersectionF.cmp a b).isSome) ∧
        (getHitF xsNumeric).isSome := by
  have hnn : ∀ i ∈ xsNumeric, i.t ≠ none :=
    of_decide_eq_true (by with_unfolding_all rfl)
  exact ⟨hnn, intersection_cmp_total_without_nan.1 xsNumeric hnn⟩

lemma r0_mem_unit (n1 n2 : ℚ) (h1 : 1 ≤ n1) (h2 : 1 ≤ n2) :
    0 ≤ ((n1 - n2) / (n1 + n2)) ^ 2 ∧ ((n1 - n2) / (n1 + n2)) ^ 2 ≤ 1 := by
  have hpos : (0 : ℚ) < n1 + n2 := by linarith
  constructor
  · positivity
  · rw [div_pow, div_le_one (by positivity)]
    nlinarith

lemma blend_mem_unit (r0 c : ℚ) (hr0 : 0 ≤ r0) (hr1 : r0 ≤ 1)
    (hc0 : 0 ≤ c) (hc1 : c ≤ 1) :
    0 ≤ (1 - r0) * (1 - c) ^ 5 + r0 ∧ (1 - r0) * (1 - c) ^ 5 + r0 ≤ 1 := by
  have h0 : (0 : ℚ) ≤ 1 - c := by linarith
  have h1 : (1 - c) ^ 5 ≤ 1 := pow_le_one₀ h0 (by linarith)
  have h2 : 0 ≤ (1 - c) ^ 5 := pow_nonneg h0 5
  constructor <;> nlinarith

/-- C6: for a precomputed hit with unit eye/normal data (0 ≤ eye·normal ≤ 1)
and refractive indices at least 1, and any sqrt that maps [0, 1] into
[0, 1] (as f32 sqrt does), the Schlick reflectance lies in [0, 1], and under
total internal reflection (n1 > n2 with sin²θ_t > 1) it is exactly 1. -/
theorem schlick_reflectance_mem_unit_and_tir (F : FloatOps) (comps : PrecomputedHit)
    (hsq : ∀ x : ℚ, 0 ≤ x → x ≤ 1 → 0 ≤ F.sqrt x ∧ F.sqrt x ≤ 1)
    (hcos0 : 0 ≤ comps.eye.dot comps.normal)
    (hcos1 : comps.eye.dot comps.normal ≤ 1)
    (hn1 : 1 ≤ comps.n1) (hn2 : 1 ≤ comps.n2) :
    (0 ≤ comps.schlick_reflectance F ∧ comps.schlick_reflectance F ≤ 1) ∧
      (comps.n2 < comps.n1 →
        1 < (comps.n1 / comps.n2) ^ 2 * (1 - comps.eye.dot comps.normal ^ 2) →
        comps.schlick_reflectance F = 1) := by
  unfold PrecomputedHit.schlick_reflectance
  set cos := comps.eye.dot comps.normal with hcosdef
  by_cases hgt : comps.n2 < comps.n1
  · rw [if_pos hgt]
    set n := comps.n1 / comps.n2 with hndef
    have hsin2eq : n * n * (cos * -cos + 1) = (comps.n1 / comps.n2) ^ 2 * (1 - cos ^ 2) := by
      rw [hndef]
      ring
    by_cases htir : 1 < n * n * (cos * -cos + 1)
    · rw [if_pos htir]
      exact ⟨⟨zero_le_one, le_refl 1⟩, fun _ _ => rfl⟩
    · rw [if_neg htir]
      have hs2le : n * n * (cos * -cos + 1) ≤ 1 := not_lt.mp htir
      have hs2ge : 0 ≤ n * n * (cos * -cos + 1) := by
        have hnn : 0 ≤ n * n := mul_self_nonneg n
        have hcc : 0 ≤ cos * -cos + 1 := by nlinarith
        exact mul_nonneg hnn hcc
      obtain ⟨hsq0, hsq1⟩ :=
        hsq (1 - n * n * (cos * -cos + 1)) (by linarith) (by linarith)
      obtain ⟨hr0, hr1⟩ := r0_mem_unit comps.n1 comps.n2 hn1 hn2
      refine ⟨blend_mem_unit _ _ hr0 hr1 hsq0 hsq1, ?_⟩
      intro _ hgt2
      rw [← hsin2eq] at hgt2
      exact absurd hgt2 htir
  · rw [if_neg hgt]
    obtain ⟨hr0, hr1⟩ := r0_mem_unit comps.n1 comps.n2 hn1 hn2
    exact ⟨blend_mem_unit _ _ hr0 hr1 hcos0 hcos1, fun hgt2 _ => absurd hgt2 hgt⟩

/-- Witness for C6 at a 36.87° glass-to-vacuum interface and the
constantly-zero sqrt (which maps [0,1] into [0,1]). -/
theorem schlick_reflectance_mem_unit_and_tir_witness :
    (0 ≤ compsSchlick.eye.dot compsSchlick.normal ∧
        compsSchlick.eye.dot compsSchlick.normal ≤ 1 ∧
          1 ≤ compsSchlick.n1 ∧ 1 ≤ compsSchlick.n2) ∧
      (0 ≤ compsSchlick.schlick_reflectance zeroOps ∧
          compsSchlick.schlick_reflectance zeroOps ≤ 1) ∧
        (compsSchlick.n2 < compsSchlick.n1 →
          1 < (compsSchlick.n1 / compsSchlick.n2) ^ 2 *
              (1 - compsSchlick.eye.dot compsSchlick.normal ^ 2) →
          compsSchlick.schlick_reflectance zeroOps = 1) := by
  have hsq : ∀ x : ℚ, 0 ≤ x → x ≤ 1 → 0 ≤ zeroOps.sqrt x ∧ zeroOps.sqrt x ≤ 1 :=
    fun _ _ _ => ⟨le_refl 0, zero_le_one⟩
  have hcos0 : 0 ≤ compsSchlick.eye.dot compsSchlick.normal :=
    of_decide_eq_true (by with_unfolding_all rfl)
  have hcos1 : compsSchlick.eye.dot compsSchlick.normal ≤ 1 :=
    of_decide_eq_true (by with_unfolding_all rfl)
  have hn1 : 1 ≤ compsSchlick.n1 := of_decide_eq_true (by with_unfolding_all rfl)
  have hn2 : 1 ≤ compsSchlick.n2 := of_decide_eq_true (by with_unfolding_all rfl)
  exact ⟨⟨hcos0, hcos1, hn1, hn2⟩,
    schlick_reflectance_mem_unit_and_tir zeroOps compsSchlick hsq hcos0 hcos1 hn1 hn2⟩

lemma ppmLoop_chunks_bounded :
    ∀ (n : ℕ) (l : List Color), l.length ≤ n →
      ∀ acc : String, ppmLoop l 0 acc = acc ++ ppmChunks l := by
  intro n
  induction n with
  | zero =>
    intro l hl acc
    rw [List.length_eq_zero.mp (Nat.le_zero.mp hl)]
    show acc = acc ++ ""
    rw [String.append_empty]
  | succ n ih =>
    intro l hl acc
    rcases l with _ | ⟨a, _ | ⟨b, _ | ⟨c, _ | ⟨d, _ | ⟨e, _ | ⟨f, rest⟩⟩⟩⟩⟩⟩
    · show acc = acc ++ ""
      rw [String.append_empty]
    · rfl
    · show acc ++ tripleStr a ++ tripleStr b = acc ++ (tripleStr a ++ tripleStr b)
      simp [String.append_assoc]
    · show acc ++ tripleStr a ++ tripleStr b ++ tripleStr c =
        acc ++ (tripleStr a ++ tripleStr b ++ tripleStr c)
      simp [String.append_assoc]
    · show acc ++ tripleStr a ++ tripleStr b ++ tripleStr c ++ tripleStr d =
        acc ++ (tripleStr a ++ tripleStr b ++ tripleStr c ++ tripleStr d)
      simp [String.append_assoc]
    · show acc ++ tripleStr a ++ tripleStr b ++ tripleStr c ++ tripleStr d ++ tripleStr e =
        acc ++ (tripleStr a ++ tripleStr b ++ tripleStr c ++ tripleStr d ++ tripleStr e)
      simp [String.append_assoc]
    · have hr : rest.length ≤ n := by
        simp only [List.length_cons] at hl
        omega
      show ppmLoop rest 0
          (acc ++ tripleStr a ++ tripleStr b ++ tripleStr c ++ tripleStr d ++ tripleStr e
            ++ tripleStr f ++ "\n") =
        acc ++ (tripleStr a ++ tripleStr b ++ tripleStr c ++ tripleStr d ++ tripleStr e
          ++ tripleStr f ++ "\n" ++ ppmChunks rest)
      rw [ih rest hr]
      simp [String.append_assoc]

/-- C8 (amended): the serialization is exactly the `P3` header (width,
height, 255), then the body as lines of six value-triples — each value the
channel times 255 cast to u8, i.e. truncated toward zero and saturated to
[0, 255] — with a trailing newline; six 12-byte triples mean a line can
reach 72 columns. -/
theorem convert_to_ppm_structure (c : Canvas) :
    c.convert_to_ppm =
      "P3\n" ++ (toString c.width ++ " " ++ toString c.height ++ "\n") ++ "255\n"
        ++ ppmChunks c.pixels ++ "\n" := by
  show ppmLoop c.pixels 0
      ("P3\n" ++ (toString c.width ++ " " ++ toString c.height ++ "\n") ++ "255\n")
      ++ "\n" = _
  rw [ppmLoop_chunks_bounded c.pixels.length c.pixels (le_refl _)]

/-- C8 (counterexample): on a 1×1 canvas with channel 503/1275 the code
emits the truncated value 100 (`(x * 255.) as u8`), while the claim's
scaled-clamped-rounded value is 101. -/
theorem convert_to_ppm_truncates_not_rounds :
    Canvas.convert_to_ppm canvasTrunc = "P3\n1 1\n255\n100 0 0 \n" ∧
      specPpmValue (503 / 1275) = 101 ∧ (101 : ℤ) ≠ 100 := by
  refine ⟨?_, ?_, by decide⟩
  · with_unfolding_all rfl
  · with_unfolding_all rfl

/-- C1: `render` loops `0..vsize-1` and `0..hsize-1`, so on a 2×2 camera
with an all-white sampling oracle only pixel (0, 0) is ever written; the
last row and column — (0, 1), (1, 0), (1, 1) — keep the canvas's initial
black instead of the claimed averaged, clamped sample color. -/
theorem render_skips_last_row_and_column :
    (cameraTwo.render sampleWhite).map
        (fun cv => (cv.pixel_at 0 0, cv.pixel_at 0 1, cv.pixel_at 1 0, cv.pixel_at 1 1)) =
      some (some Color.white, some Color.black, some Color.black, some Color.black) := by
  with_unfolding_all rfl

end RT
